import Mathlib

/-!
Verification of the clinic-express LAB-file pipeline.

This file gives a shallow embedding of the two core functions of
`src/utils/labFileParser.ts` — `parseLabFile` and `decompressArchive` —
and proves or refutes the frozen specification claims about them.

JavaScript semantics captured by the embedding:
* `line.split('\\')` on a single-character separator, where indexing past
  the end of the resulting array yields `undefined`, is modelled with
  `List String` and `List.get?` (`none` = `undefined`).
* `fileContent.split(/\r?\n/)` is modelled by `splitLabLines`: a line ends
  at every `'\n'`, and a `'\r'` immediately before that `'\n'` is dropped.
* `x || null` on a possibly-undefined string is `orNull`.
* The tri-state of `currentProtocolId` (`null` initially, possibly
  `undefined` or a string after an A1 line; the code compares with
  `=== null` only) is the inductive `JVal`.
* `Object.keys(currentAdmin).length > 0` is tracked by the explicit key
  list `currentAdminKeys`: every JS assignment `currentAdmin.f = v` adds
  the key `f` (even when `v` is `undefined`), so the embedding records the
  assigned keys alongside the field values.
-/

inductive JVal where
  | null
  | undef
  | str (s : String)
deriving DecidableEq, Repr

/-- Splitting a character list on a single separator character, JS
`String.prototype.split` style: always at least one (possibly empty) field. -/
def splitFieldsAux (sep : Char) : List Char → List Char → List String
  | [], acc => [String.mk acc.reverse]
  | c :: cs, acc =>
    if c = sep then String.mk acc.reverse :: splitFieldsAux sep cs []
    else splitFieldsAux sep cs (c :: acc)

/-- JS `s.split(sep)` for a one-character separator `sep`. -/
def jsSplit (s : String) (sep : Char) : List String :=
  splitFieldsAux sep s.data []

/-- Splitting on the regex `/\r?\n/`: a `'\n'` terminates a line and eats an
immediately preceding `'\r'`; a lone `'\r'` stays inside its line. -/
def splitLabLinesAux : List Char → List Char → List String
  | [], acc => [String.mk acc.reverse]
  | c :: cs, acc =>
    if c = '\n' then
      (match acc with
        | '\r' :: acc2 => String.mk acc2.reverse
        | _ => String.mk acc.reverse) :: splitLabLinesAux cs []
    else splitLabLinesAux cs (c :: acc)

/-- JS `fileContent.split(/\r?\n/)`. -/
def splitLabLines (s : String) : List String :=
  splitLabLinesAux s.data []

/-- Whitespace characters removed by JS `String.prototype.trim` (the common
ASCII subset, which is all the LAB format can contain). -/
def isJsSpace (c : Char) : Bool :=
  c = ' ' || c = '\t' || c = '\n' || c = '\r' || c = '\x0b' || c = '\x0c'

/-- JS `s.trim()`. -/
def jsTrim (s : String) : String :=
  String.mk (((s.data.dropWhile isJsSpace).reverse.dropWhile isJsSpace).reverse)

/-- The line list the parser iterates over: split on line terminators and
drop blank lines, as in `fileContent.split(/\r?\n/).filter(l => l.trim() !== '')`. -/
def labLines (s : String) : List String :=
  (splitLabLines s).filter (fun l => jsTrim l ≠ "")

/-- Character-list version of the JS `startsWith` test. -/
def charsStartWith : List Char → List Char → Bool
  | [], _ => true
  | _ :: _, [] => false
  | p :: ps, c :: cs => p = c && charsStartWith ps cs

/-- JS `s.startsWith(pat)`. -/
def jsStartsWith (s pat : String) : Bool :=
  charsStartWith pat.data s.data

/-- The `ParsedAdministrativeData` interface: all fields optional; `none`
stands for both JS `undefined` and JS `null` (the code never distinguishes
them on these fields). -/
structure ParsedAdministrativeData where
  ident_protocol : Option String := none
  lab_identification : Option String := none
  surname : Option String := none
  firstname : Option String := none
  sex : Option String := none
  date_of_birth : Option String := none
  external_identifier : Option String := none
  street_number : Option String := none
  postal_code : Option String := none
  city : Option String := none
  prescribing_doctor : Option String := none
  date_request : Option String := none
  empty_field : Option String := none
  protocol_type : Option String := none
  cover : Option String := none
  holder : Option String := none
  cod_tit1 : Option String := none
  cod_tit2 : Option String := none
  file_name : Option String := none
  status : Option Nat := none
deriving DecidableEq, Repr

/-- The `ParsedResultData` interface; string fields hold `none` when the JS
value is `undefined` (an out-of-range `parts[i]`). -/
structure ParsedResultData where
  type : Nat
  ident_protocol : Option String
  analytical_code : Option String
  analytical_name : Option String
  reference_value : Option String
  unit : Option String
  code : Option String
  result : Option String
deriving DecidableEq, Repr

/-- The `ParsedPatientBlock` interface. -/
structure ParsedPatientBlock where
  administrative : ParsedAdministrativeData
  results : List ParsedResultData
deriving DecidableEq, Repr

/-- Mutable loop state of `parseLabFile`: the output array, the current
administrative accumulator (with its set of assigned JS object keys) and
result accumulator, and `currentProtocolId`. -/
structure ParserState where
  blocks : List ParsedPatientBlock
  currentAdmin : ParsedAdministrativeData
  currentAdminKeys : List String
  currentResults : List ParsedResultData
  currentProtocolId : JVal
deriving DecidableEq, Repr

/-- State at loop entry. -/
def initState : ParserState :=
  { blocks := [], currentAdmin := {}, currentAdminKeys := [],
    currentResults := [], currentProtocolId := JVal.null }

/-- Conversion of a possibly-missing array element to the value stored in
`currentProtocolId` (never `null`). -/
def jvalOf : Option String → JVal
  | none => JVal.undef
  | some s => JVal.str s

/-- JS `v || null` for a possibly-undefined string `v`. -/
def orNull : Option String → Option String
  | none => none
  | some s => if s = "" then none else some s

/-- Adding JS object keys in assignment order, skipping keys already present. -/
def addKeys (ks : List String) (ns : List String) : List String :=
  ns.foldl (fun acc k => if k ∈ acc then acc else acc ++ [k]) ks

/-- The `switch (recordType)` statement of `parseLabFile`: A2-A5 overwrite
administrative fields of the current block, L1/L5 append a result record,
anything else (including the fall-through from the A1 branch) only warns. -/
def applySwitch (st : ParserState) (parts : List String) (recordType : String) : ParserState :=
  if recordType = "A2" then
    { st with
      currentAdmin := { st.currentAdmin with
        surname := parts.get? 2,
        firstname := parts.get? 3,
        sex := parts.get? 4,
        date_of_birth := parts.get? 5,
        external_identifier := orNull (parts.get? 6) },
      currentAdminKeys := addKeys st.currentAdminKeys
        ["surname", "firstname", "sex", "date_of_birth", "external_identifier"] }
  else if recordType = "A3" then
    { st with
      currentAdmin := { st.currentAdmin with
        street_number := parts.get? 2,
        postal_code := parts.get? 3,
        city := parts.get? 4 },
      currentAdminKeys := addKeys st.currentAdminKeys
        ["street_number", "postal_code", "city"] }
  else if recordType = "A4" then
    { st with
      currentAdmin := { st.currentAdmin with
        prescribing_doctor := parts.get? 2,
        date_request := parts.get? 3,
        empty_field := orNull (parts.get? 4),
        protocol_type := parts.get? 5 },
      currentAdminKeys := addKeys st.currentAdminKeys
        ["prescribing_doctor", "date_request", "empty_field", "protocol_type"] }
  else if recordType = "A5" then
    { st with
      currentAdmin := { st.currentAdmin with
        cover := parts.get? 2,
        holder := parts.get? 3,
        cod_tit1 := parts.get? 4,
        cod_tit2 := parts.get? 5 },
      currentAdminKeys := addKeys st.currentAdminKeys
        ["cover", "holder", "cod_tit1", "cod_tit2"] }
  else if recordType = "L1" then
    { st with currentResults := st.currentResults ++
      [{ type := 1,
         ident_protocol := parts.get? 1,
         analytical_code := parts.get? 2,
         analytical_name := parts.get? 3,
         reference_value := parts.get? 4,
         unit := parts.get? 5,
         code := parts.get? 6,
         result := parts.get? 7 }] }
  else if recordType = "L5" then
    { st with currentResults := st.currentResults ++
      [{ type := 5,
         ident_protocol := parts.get? 1,
         analytical_code := parts.get? 2,
         analytical_name := some "",
         reference_value := some "",
         unit := some "",
         code := some "",
         result := parts.get? 6 }] }
  else st

/-- One iteration of the `for (const line of lines)` loop, on the already
split field list. The A1 branch pushes the previous block when its
accumulator is non-empty, resets the accumulators, and then (as in the
source, which has no `continue` there) still reaches the `switch`, where an
A1-prefixed tag matches no case. -/
def processParts (st : ParserState) (parts : List String) : ParserState :=
  let recordType := parts.headD ""
  if recordType = "" then st
  else if jsStartsWith recordType "A1" then
    let st1 :=
      if 0 < st.currentAdminKeys.length ∨ 0 < st.currentResults.length then
        { st with blocks := st.blocks ++
          [{ administrative := st.currentAdmin, results := st.currentResults }] }
      else st
    let st2 := { st1 with
      currentAdmin := { ident_protocol := parts.get? 1, lab_identification := parts.get? 2 },
      currentAdminKeys := ["ident_protocol", "lab_identification"],
      currentResults := [],
      currentProtocolId := jvalOf (parts.get? 1) }
    applySwitch st2 parts recordType
  else if st.currentProtocolId = JVal.null then st
  else applySwitch st parts recordType

/-- One loop iteration on a raw line. -/
def processLine (st : ParserState) (line : String) : ParserState :=
  processParts st (jsSplit line '\\')

/-- The exported `parseLabFile` function. -/
def parseLabFile (fileContent : String) : List ParsedPatientBlock :=
  let final := (labLines fileContent).foldl processLine initState
  if 0 < final.currentAdminKeys.length ∨ 0 < final.currentResults.length then
    final.blocks ++ [{ administrative := final.currentAdmin, results := final.currentResults }]
  else final.blocks

/-- Field list of a line. -/
def partsOf (l : String) : List String := jsSplit l '\\'

/-- The record-type tag of a line (`parts[0]`). -/
def tagOf (l : String) : String := (partsOf l).headD ""

/-- The protocol-id field of a line (`parts[1]`). -/
def optProto (l : String) : Option String := (partsOf l).get? 1

/-- A line the parser treats as block-opening: its tag starts with `A1`. -/
def isBlockOpening (l : String) : Bool := jsStartsWith (tagOf l) "A1"

/-- One member entry of an opened zip archive, as `unzipper` exposes it:
a path, a type tag (`"Directory"` for directories), and a `buffer(password)`
method that either yields the entry's bytes or throws (modelled by
`Option`). -/
structure ZEntry where
  path : String
  type : String
  read : String → Option String

/-- The non-directory members, `directory.files.filter(f => f.type !== 'Directory')`. -/
def nonDirFiles (entries : List ZEntry) : List ZEntry :=
  entries.filter (fun e => e.type ≠ "Directory")

/-- The inner `for (const file of files)` loop of one password attempt:
entries are read sequentially and appended to the (shared, never reset)
`decompressedFiles` accumulator; the first failing entry aborts the attempt,
keeping what was already pushed. Returns the accumulator and the success flag. -/
def tryEntries (pwd : String) : List ZEntry → List (String × String) → List (String × String) × Bool
  | [], acc => (acc, true)
  | e :: es, acc =>
    match e.read pwd with
    | some d => tryEntries pwd es (acc ++ [(e.path, d)])
    | none => (acc, false)

/-- The `for (const pwd of allPasswordsToTry)` loop. The archive is
re-opened each iteration (`arch = none` models `unzipper.Open.buffer`
throwing, which the `catch` swallows); a fully successful attempt breaks out
of the loop with the accumulator, otherwise the next password is tried with
the accumulator kept as-is. `none` means the loop ended with `success`
still false. -/
def tryPasswords (arch : Option (List ZEntry)) :
    List String → List (String × String) → Option (List (String × String))
  | [], _ => none
  | pwd :: rest, acc =>
    match arch with
    | none => tryPasswords arch rest acc
    | some entries =>
      let r := tryEntries pwd (nonDirFiles entries) acc
      if r.2 then some r.1 else tryPasswords arch rest r.1

/-- Iteration order of a JS `Set` built from a list: first occurrence wins. -/
def dedupAux (seen : List String) : List String → List String
  | [] => []
  | x :: xs => if x ∈ seen then dedupAux seen xs else x :: dedupAux (seen ++ [x]) xs

/-- `Array.from(new Set(l))`. -/
def jsSetDedup (l : List String) : List String := dedupAux [] l

/-- The exported `decompressArchive` function: reject any extension other
than `.zip`, then run the password-trial loop over
`Array.from(new Set(['', ...passwords]))`, and raise the aggregate error if
no attempt succeeded. -/
def decompressArchive (arch : Option (List ZEntry)) (fileExtension : String)
    (passwords : List String) : Except String (List (String × String)) :=
  if fileExtension ≠ ".zip" then
    Except.error "Formato de archivo no soportado. Solo .zip es aceptado."
  else
    match tryPasswords arch (jsSetDedup ("" :: passwords)) [] with
    | some files => Except.ok files
    | none => Except.error "No se pudo descomprimir el archivo. Contrasena incorrecta o archivo corrupto."

/-- Archive member readable with every password. -/
def entryOpen : ZEntry :=
  { path := "f1", type := "File", read := fun _ => some "d1" }

/-- Archive member readable only with password `p`. -/
def entryLocked : ZEntry :=
  { path := "f2", type := "File", read := fun pwd => if pwd = "p" then some "d2" else none }

/-- A two-member password-protected archive: `f1` decompresses with any
password, `f2` only with `"p"`. -/
def archStale : Option (List ZEntry) := some [entryOpen, entryLocked]

/-- C1. The claim says the list returned by `decompressArchive` contains
only entries read during the single successful password attempt. The code
violates this: `decompressedFiles` is never reset between attempts, so the
copy of `f1` pushed during the failed empty-password attempt survives and
the successful `"p"` attempt appends to it — the archive has two members
but three records are returned, `f1` twice. -/
theorem C1_evaluation :
    decompressArchive archStale ".zip" ["p"] =
      Except.ok [("f1", "d1"), ("f1", "d1"), ("f2", "d2")] := by
  rfl

/-- C2. The spec's example line `L5\P001\HGB\\\\\14.2` (five separators
between `HGB` and `14.2`, exactly the layout of the code's own comment
`L5\id.prot.\code anal.\\\\\résultat\`) puts `14.2` at field index 7, but
the code stores `parts[6]`, which is an empty gap field: inside a block the
produced record has `result = ""`, not `"14.2"`; and the line on its own is
skipped entirely because it precedes any A1 line. -/
theorem C2_evaluation :
    parseLabFile "L5\\P001\\HGB\\\\\\\\\\14.2" = [] ∧
    parseLabFile "A1\\P001\\LAB\nL5\\P001\\HGB\\\\\\\\\\14.2" =
      [{ administrative := { ident_protocol := some "P001", lab_identification := some "LAB" },
         results := [{ type := 5, ident_protocol := some "P001", analytical_code := some "HGB",
                       analytical_name := some "", reference_value := some "",
                       unit := some "", code := some "", result := some "" }] }] ∧
    (partsOf "L5\\P001\\HGB\\\\\\\\\\14.2").get? 7 = some "14.2" := by
  exact ⟨rfl, rfl, rfl⟩

/-- C3 counterexample. On the input consisting of the single line `A1` (no
field separator), the parser emits one block whose administrative record has
no protocol identifier (`parts[1]` is `undefined`), refuting the claim that
every emitted block has a non-null protocol identifier. -/
theorem C3_counterexample :
    (parseLabFile "A1").map (fun b => b.administrative.ident_protocol) = [none] := by
  rfl

/-- C8. Any declared extension other than `.zip` makes `decompressArchive`
fail immediately with the unsupported-format error, independent of the
archive contents and of the candidate passwords (so before any password is
tried), with no internal retry. -/
theorem C8_unsupported (arch : Option (List ZEntry)) (ext : String)
    (passwords : List String) (h : ext ≠ ".zip") :
    decompressArchive arch ext passwords =
      Except.error "Formato de archivo no soportado. Solo .zip es aceptado." := by
  unfold decompressArchive
  rw [if_pos h]

/-- C8 witness: a `.rar` declaration is rejected at once. -/
theorem C8_witness :
    decompressArchive archStale ".rar" [] =
      Except.error "Formato de archivo no soportado. Solo .zip es aceptado." :=
  C8_unsupported archStale ".rar" [] (by decide)

theorem jvalOf_ne_null (o : Option String) : jvalOf o ≠ JVal.null := by
  cases o <;> simp [jvalOf]

theorem addKeys_ne_nil (ns : List String) (ks : List String) (h : ks ≠ []) :
    addKeys ks ns ≠ [] := by
  induction ns generalizing ks with
  | nil => exact h
  | cons n ns ih =>
    have hstep : (if n ∈ ks then ks else ks ++ [n]) ≠ [] := by
      split
      · exact h
      · simp
    exact ih _ hstep

theorem A1_tag_ne (rt : String) (h : jsStartsWith rt "A1" = true) :
    rt ≠ "A2" ∧ rt ≠ "A3" ∧ rt ≠ "A4" ∧ rt ≠ "A5" ∧ rt ≠ "L1" ∧ rt ≠ "L5" ∧ rt ≠ "" := by
  refine ⟨?_, ?_, ?_, ?_, ?_, ?_, ?_⟩ <;>
    (intro e; rw [e] at h; exact absurd h (by decide))

theorem applySwitch_A1_id (st : ParserState) (parts : List String) (rt : String)
    (h : jsStartsWith rt "A1" = true) : applySwitch st parts rt = st := by
  obtain ⟨h2, h3, h4, h5, h6, h7, _⟩ := A1_tag_ne rt h
  simp [applySwitch, h2, h3, h4, h5, h6, h7]

theorem applySwitch_default (st : ParserState) (parts : List String) (rt : String)
    (h : rt ∉ (["A2", "A3", "A4", "A5", "L1", "L5"] : List String)) :
    applySwitch st parts rt = st := by
  simp only [List.mem_cons, List.mem_singleton, not_or] at h
  obtain ⟨h2, h3, h4, h5, h6, h7⟩ := h
  simp [applySwitch, h2, h3, h4, h5, h6, h7]

theorem applySwitch_effects (st : ParserState) (parts : List String) (rt : String) :
    (applySwitch st parts rt).blocks = st.blocks ∧
    (applySwitch st parts rt).currentAdmin.ident_protocol = st.currentAdmin.ident_protocol ∧
    (applySwitch st parts rt).currentProtocolId = st.currentProtocolId ∧
    (st.currentAdminKeys ≠ [] → (applySwitch st parts rt).currentAdminKeys ≠ []) := by
  unfold applySwitch
  split_ifs <;> refine ⟨rfl, rfl, rfl, fun h => ?_⟩ <;>
    first
      | exact addKeys_ne_nil _ _ h
      | exact h

theorem processParts_nilTag (st : ParserState) (parts : List String)
    (h : parts.headD "" = "") : processParts st parts = st := by
  simp only [processParts]
  rw [if_pos h]

theorem processParts_opening (st : ParserState) (parts : List String)
    (h : jsStartsWith (parts.headD "") "A1" = true) :
    processParts st parts =
      { blocks := st.blocks ++
          (if 0 < st.currentAdminKeys.length ∨ 0 < st.currentResults.length then
            [{ administrative := st.currentAdmin, results := st.currentResults }] else []),
        currentAdmin := { ident_protocol := parts.get? 1, lab_identification := parts.get? 2 },
        currentAdminKeys := ["ident_protocol", "lab_identification"],
        currentResults := [],
        currentProtocolId := jvalOf (parts.get? 1) } := by
  have hne : ¬ (parts.headD "" = "") := by
    intro e
    rw [e] at h
    exact absurd h (by decide)
  rw [processParts]
  simp only [hne, if_false, h, if_true]
  rw [applySwitch_A1_id _ _ _ h]
  split_ifs <;> simp

theorem processParts_skip (st : ParserState) (parts : List String)
    (h1 : ¬ (parts.headD "" = "")) (h2 : jsStartsWith (parts.headD "") "A1" = false)
    (h3 : st.currentProtocolId = JVal.null) : processParts st parts = st := by
  rw [processParts]
  simp only [h1, if_false, h2, Bool.false_eq_true, h3, if_true]

theorem processParts_switch (st : ParserState) (parts : List String)
    (h1 : ¬ (parts.headD "" = "")) (h2 : jsStartsWith (parts.headD "") "A1" = false)
    (h3 : st.currentProtocolId ≠ JVal.null) :
    processParts st parts = applySwitch st parts (parts.headD "") := by
  rw [processParts]
  simp only [h1, if_false, h2, Bool.false_eq_true, h3, if_false]

/-- Loop invariant tying the parser state to the block-opening lines
processed so far: before any opening line the state is untouched; afterwards
the emitted blocks carry the protocol ids of the earlier opening lines, and
the accumulator carries the protocol id of the latest one. -/
def ParserInv (st : ParserState) (opens : List String) : Prop :=
  (opens = [] → st = initState) ∧
  (∀ as a, opens = as ++ [a] →
    st.blocks.map (fun b => b.administrative.ident_protocol) = as.map optProto ∧
    st.currentAdmin.ident_protocol = optProto a ∧
    st.currentAdminKeys ≠ [] ∧
    st.currentProtocolId ≠ JVal.null)

theorem ParserInv_init : ParserInv initState [] := by
  refine ⟨fun _ => rfl, fun as a h => ?_⟩
  exact absurd h (by simp)

theorem ParserInv_step (st : ParserState) (l : String) (opens : List String)
    (h : ParserInv st opens) :
    ParserInv (processLine st l) (opens ++ if isBlockOpening l then [l] else []) := by
  have hparts : jsSplit l '\\' = partsOf l := rfl
  by_cases htag : (partsOf l).headD "" = ""
  · have hso : isBlockOpening l = false := by
      have : tagOf l = "" := htag
      rw [isBlockOpening, this]
      rfl
    rw [processLine, hparts, processParts_nilTag _ _ htag, hso]
    simpa using h
  · by_cases hopen : isBlockOpening l = true
    · have hsw : jsStartsWith ((partsOf l).headD "") "A1" = true := hopen
      rw [processLine, hparts, processParts_opening _ _ hsw, hopen]
      constructor
      · intro habs
        exact absurd habs (by simp)
      · intro as a heq
        obtain ⟨has, ha⟩ := List.append_inj' heq (by simp)
        obtain rfl : l = a := by simpa using ha
        subst has
        rcases List.eq_nil_or_concat' opens with hK | ⟨as₀, a₀, hK⟩
        · subst hK
          have hst : st = initState := h.1 rfl
          subst hst
          refine ⟨?_, rfl, by simp, jvalOf_ne_null _⟩
          simp [initState]
        · subst hK
          obtain ⟨hmap, hident, hkeys, _⟩ := h.2 as₀ a₀ rfl
          have hlen : 0 < st.currentAdminKeys.length := List.length_pos.mpr hkeys
          refine ⟨?_, rfl, by simp, jvalOf_ne_null _⟩
          rw [if_pos (Or.inl hlen)]
          simp [hmap, hident]
    · have hso : isBlockOpening l = false := by
        cases hbool : isBlockOpening l
        · rfl
        · exact absurd hbool hopen
      have hsw : jsStartsWith ((partsOf l).headD "") "A1" = false := hso
      rw [hso]
      rcases List.eq_nil_or_concat' opens with hK | ⟨as₀, a₀, hK⟩
      · subst hK
        have hst : st = initState := h.1 rfl
        subst hst
        rw [processLine, hparts, processParts_skip _ _ htag hsw rfl]
        simpa using ParserInv_init
      · subst hK
        obtain ⟨hmap, hident, hkeys, hpid⟩ := h.2 as₀ a₀ rfl
        rw [processLine, hparts, processParts_switch _ _ htag hsw hpid]
        obtain ⟨hb, hi, hp, hk⟩ := applySwitch_effects st (partsOf l) ((partsOf l).headD "")
        constructor
        · intro habs
          exact absurd habs (by simp)
        · intro as a heq
          obtain ⟨has, ha⟩ := List.append_inj' (by simpa using heq) (by simp)
          obtain rfl : a₀ = a := by simpa using ha
          subst has
          rw [hb, hi, hp]
          exact ⟨hmap, hident, hk hkeys, hpid⟩

theorem ParserInv_foldl (lines : List String) :
    ∀ st opens, ParserInv st opens →
      ParserInv (List.foldl processLine st lines) (opens ++ lines.filter (fun l => isBlockOpening l)) := by
  induction lines with
  | nil => intro st opens h; simpa using h
  | cons l ls ih =>
    intro st opens h
    have h1 := ParserInv_step st l opens h
    have h2 := ih _ _ h1
    rw [List.foldl_cons]
    have harr : (opens ++ if isBlockOpening l then [l] else []) ++ ls.filter (fun l => isBlockOpening l) =
        opens ++ (l :: ls).filter (fun l => isBlockOpening l) := by
      rw [List.filter_cons]
      by_cases hc : isBlockOpening l
      · simp [hc]
      · simp [hc]
    rw [harr] at h2
    exact h2

/-- The emitted blocks correspond one-to-one, in source order, to the
block-opening lines of the input, each carrying the protocol-id field of
its opening line. -/
theorem parse_map_proto (s : String) :
    (parseLabFile s).map (fun b => b.administrative.ident_protocol) =
      ((labLines s).filter (fun l => isBlockOpening l)).map optProto := by
  have h := ParserInv_foldl (labLines s) initState [] ParserInv_init
  rw [List.nil_append] at h
  rw [parseLabFile]
  rcases List.eq_nil_or_concat' ((labLines s).filter (fun l => isBlockOpening l)) with hK | ⟨as, a, hK⟩
  · rw [hK] at h ⊢
    have hst := h.1 rfl
    rw [hst]
    simp [initState]
  · rw [hK] at h ⊢
    obtain ⟨hmap, hident, hkeys, _⟩ := h.2 as a rfl
    have hlen : 0 < ((labLines s).foldl processLine initState).currentAdminKeys.length :=
      List.length_pos.mpr hkeys
    simp only [if_pos (Or.inl hlen)]
    simp [hmap, hident]

/-- C3 (amended). Every block emitted by `parseLabFile` has a non-null
protocol identifier on its administrative record, provided every
block-opening line of the input carries a protocol-id field (at least one
field separator); an opening line consisting of the bare tag alone yields a
block whose identifier is undefined (see the counterexample). -/
theorem C3_amended (s : String)
    (h : ∀ l ∈ labLines s, isBlockOpening l = true → 2 ≤ (partsOf l).length) :
    ∀ b ∈ parseLabFile s, b.administrative.ident_protocol ≠ none := by
  intro b hb
  have hmem : b.administrative.ident_protocol ∈
      (parseLabFile s).map (fun b => b.administrative.ident_protocol) :=
    List.mem_map.mpr ⟨b, hb, rfl⟩
  rw [parse_map_proto s] at hmem
  obtain ⟨o, ho, heq⟩ := List.mem_map.mp hmem
  obtain ⟨homem, hoopen⟩ := List.mem_filter.mp ho
  have hlen := h o homem hoopen
  rw [← heq]
  simp only [optProto]
  intro hnone
  rw [List.get?_eq_none] at hnone
  omega

/-- C3 witness: the single block parsed from `A1\P1` has its protocol id. -/
theorem C3_witness :
    (ParsedPatientBlock.mk { ident_protocol := some "P1" } []).administrative.ident_protocol ≠ none :=
  C3_amended "A1\\P1" (by decide) _ (by decide)

/-- C4. For every input string with N block-opening lines (N at least 1),
`parseLabFile` returns exactly N blocks, and they appear in source order:
the i-th block carries the protocol-id field of the i-th block-opening
line. -/
theorem C4_block_count (s : String) (N : Nat) (hN : 1 ≤ N)
    (h : ((labLines s).filter (fun l => isBlockOpening l)).length = N) :
    (parseLabFile s).length = N ∧
    (parseLabFile s).map (fun b => b.administrative.ident_protocol) =
      ((labLines s).filter (fun l => isBlockOpening l)).map optProto := by
  refine ⟨?_, parse_map_proto s⟩
  have hlen := congrArg List.length (parse_map_proto s)
  rw [List.length_map, List.length_map] at hlen
  rw [hlen, h]

/-- C4 witness: a two-block input yields exactly two blocks, in order. -/
theorem C4_witness :
    (parseLabFile "A1\\P1\\LB\nL1\\P1\\GLU\nA1\\P2\\LB").length = 2 ∧
    (parseLabFile "A1\\P1\\LB\nL1\\P1\\GLU\nA1\\P2\\LB").map
        (fun b => b.administrative.ident_protocol) =
      ((labLines "A1\\P1\\LB\nL1\\P1\\GLU\nA1\\P2\\LB").filter
        (fun l => isBlockOpening l)).map optProto :=
  C4_block_count "A1\\P1\\LB\nL1\\P1\\GLU\nA1\\P2\\LB" 2 (by decide) (by decide)

/-- C9. The parser is a total function: the empty input yields the empty
block list; any input without a block-opening line (entirely unparseable)
yields the empty block list rather than an error; and a line whose tag is
neither A1-prefixed nor one of the handled record types is skipped, leaving
the state untouched, so processing continues with the remaining lines. -/
theorem C9_total :
    parseLabFile "" = [] ∧
    (∀ s, (labLines s).filter (fun l => isBlockOpening l) = [] → parseLabFile s = []) ∧
    (∀ st line, isBlockOpening line = false →
      tagOf line ∉ (["A2", "A3", "A4", "A5", "L1", "L5"] : List String) →
      processLine st line = st) := by
  refine ⟨rfl, ?_, ?_⟩
  · intro s hs
    have h := ParserInv_foldl (labLines s) initState [] ParserInv_init
    rw [List.nil_append, hs] at h
    have hst := h.1 rfl
    rw [parseLabFile, hst]
    simp [initState]
  · intro st line hopen htag
    have hparts : jsSplit line '\\' = partsOf line := rfl
    by_cases hnil : (partsOf line).headD "" = ""
    · rw [processLine, hparts, processParts_nilTag _ _ hnil]
    · have hsw : jsStartsWith ((partsOf line).headD "") "A1" = false := hopen
      by_cases hpid : st.currentProtocolId = JVal.null
      · rw [processLine, hparts, processParts_skip _ _ hnil hsw hpid]
      · rw [processLine, hparts, processParts_switch _ _ hnil hsw hpid]
        exact applySwitch_default _ _ _ htag

/-- C9 witness: garbage input parses to the empty list and a garbage line
leaves the state untouched. -/
theorem C9_witness :
    parseLabFile "hello world\nnot a lab line" = [] ∧
    processLine initState "Z9\\whatever" = initState :=
  ⟨C9_total.2.1 "hello world\nnot a lab line" (by decide),
   C9_total.2.2 initState "Z9\\whatever" (by decide) (by decide)⟩

/-- C6. Any line whose tag merely starts with `A1` is treated as
block-opening: the accumulating block is emitted when non-empty, and a
fresh block starts with protocol id and lab id taken from the line's first
and second fields after the tag. -/
theorem C6_blockOpening (st : ParserState) (line : String)
    (h : isBlockOpening line = true) :
    processLine st line =
      { blocks := st.blocks ++
          (if 0 < st.currentAdminKeys.length ∨ 0 < st.currentResults.length then
            [{ administrative := st.currentAdmin, results := st.currentResults }] else []),
        currentAdmin := { ident_protocol := (partsOf line).get? 1,
                          lab_identification := (partsOf line).get? 2 },
        currentAdminKeys := ["ident_protocol", "lab_identification"],
        currentResults := [],
        currentProtocolId := jvalOf ((partsOf line).get? 1) } :=
  processParts_opening st (partsOf line) h

/-- C6 witness: an `A1X`-tagged line (prefix match, not equality) closes the
block opened by a previous A1 line and opens a new one from its fields. -/
theorem C6_witness :
    processLine (processLine initState "A1\\P1\\LB") "A1X\\P2\\LB2" =
      { blocks := [{ administrative := { ident_protocol := some "P1", lab_identification := some "LB" },
                     results := [] }],
        currentAdmin := { ident_protocol := some "P2", lab_identification := some "LB2" },
        currentAdminKeys := ["ident_protocol", "lab_identification"],
        currentResults := [],
        currentProtocolId := JVal.str "P2" } :=
  (C6_blockOpening (processLine initState "A1\\P1\\LB") "A1X\\P2\\LB2" (by decide)).trans (by decide)

theorem processParts_adminTag (st : ParserState) (t f : String) (rest : List String)
    (ht : ¬ (t = "")) (ht2 : jsStartsWith t "A1" = false)
    (hpid : st.currentProtocolId ≠ JVal.null) :
    processParts st (t :: f :: rest) = applySwitch st (t :: f :: rest) t :=
  processParts_switch st (t :: f :: rest) ht ht2 hpid

/-- C10. While a block is active, an A2/A3/A4/A5 line overwrites the
corresponding administrative fields of the current block unconditionally:
the line's own embedded protocol-id field (its second field) is never read
or compared against the active one, so the result is identical for any two
values of that field, nothing is emitted, the result list and the active
protocol id are untouched, and the tag's fields are written from the
remaining positions. -/
theorem C10_admin_unconditional (st : ParserState) (t f1 f2 : String) (rest : List String)
    (ht : t ∈ (["A2", "A3", "A4", "A5"] : List String))
    (hpid : st.currentProtocolId ≠ JVal.null) :
    processParts st (t :: f1 :: rest) = processParts st (t :: f2 :: rest) ∧
    (processParts st (t :: f1 :: rest)).blocks = st.blocks ∧
    (processParts st (t :: f1 :: rest)).currentResults = st.currentResults ∧
    (processParts st (t :: f1 :: rest)).currentProtocolId = st.currentProtocolId ∧
    (t = "A2" → (processParts st (t :: f1 :: rest)).currentAdmin =
      { st.currentAdmin with
        surname := rest.get? 0,
        firstname := rest.get? 1,
        sex := rest.get? 2,
        date_of_birth := rest.get? 3,
        external_identifier := orNull (rest.get? 4) }) ∧
    (t = "A3" → (processParts st (t :: f1 :: rest)).currentAdmin =
      { st.currentAdmin with
        street_number := rest.get? 0,
        postal_code := rest.get? 1,
        city := rest.get? 2 }) ∧
    (t = "A4" → (processParts st (t :: f1 :: rest)).currentAdmin =
      { st.currentAdmin with
        prescribing_doctor := rest.get? 0,
        date_request := rest.get? 1,
        empty_field := orNull (rest.get? 2),
        protocol_type := rest.get? 3 }) ∧
    (t = "A5" → (processParts st (t :: f1 :: rest)).currentAdmin =
      { st.currentAdmin with
        cover := rest.get? 0,
        holder := rest.get? 1,
        cod_tit1 := rest.get? 2,
        cod_tit2 := rest.get? 3 }) := by
  simp only [List.mem_cons, List.not_mem_nil, or_false] at ht
  rcases ht with rfl | rfl | rfl | rfl <;>
    (rw [processParts_adminTag st _ f1 rest (by decide) (by decide) hpid,
         processParts_adminTag st _ f2 rest (by decide) (by decide) hpid];
     refine ⟨rfl, rfl, rfl, rfl, ?_, ?_, ?_, ?_⟩ <;>
       (intro e; first | rfl | exact absurd e (by decide)))

/-- C10 witness: an A2 line whose embedded protocol id differs from the
active one still overwrites the current block's patient-identity fields. -/
theorem C10_witness :
    processParts (processLine initState "A1\\P1\\LB") ["A2", "OTHER", "Doe", "John"] =
      processParts (processLine initState "A1\\P1\\LB") ["A2", "P1", "Doe", "John"] ∧
    (processParts (processLine initState "A1\\P1\\LB") ["A2", "OTHER", "Doe", "John"]).blocks =
      (processLine initState "A1\\P1\\LB").blocks :=
  ⟨(C10_admin_unconditional (processLine initState "A1\\P1\\LB") "A2" "OTHER" "P1"
      ["Doe", "John"] (by decide) (by decide)).1,
   (C10_admin_unconditional (processLine initState "A1\\P1\\LB") "A2" "OTHER" "P1"
      ["Doe", "John"] (by decide) (by decide)).2.1⟩

theorem dedupAux_nodup (l : List String) :
    ∀ seen, (dedupAux seen l).Nodup ∧ ∀ x ∈ dedupAux seen l, x ∉ seen := by
  induction l with
  | nil => intro seen; simp [dedupAux]
  | cons x xs ih =>
    intro seen
    by_cases hx : x ∈ seen
    · rw [dedupAux, if_pos hx]
      exact ih seen
    · rw [dedupAux, if_neg hx]
      obtain ⟨hnd, hmem⟩ := ih (seen ++ [x])
      constructor
      · refine List.nodup_cons.mpr ⟨fun hin => ?_, hnd⟩
        exact (hmem x hin) (by simp)
      · intro y hy
        rcases List.mem_cons.mp hy with rfl | hy'
        · exact hx
        · intro hys
          exact (hmem y hy') (by simp [hys])

theorem dedupAux_sublist (l : List String) :
    ∀ seen, List.Sublist (dedupAux seen l) l := by
  induction l with
  | nil => intro seen; simp [dedupAux]
  | cons x xs ih =>
    intro seen
    by_cases hx : x ∈ seen
    · rw [dedupAux, if_pos hx]
      exact List.Sublist.cons x (ih seen)
    · rw [dedupAux, if_neg hx]
      exact List.Sublist.cons₂ x (ih (seen ++ [x]))

theorem dedupAux_mem (l : List String) :
    ∀ seen x, x ∈ dedupAux seen l ↔ (x ∈ l ∧ x ∉ seen) := by
  induction l with
  | nil => intro seen x; simp [dedupAux]
  | cons y ys ih =>
    intro seen x
    by_cases hy : y ∈ seen
    · rw [dedupAux, if_pos hy, ih]
      simp only [List.mem_cons]
      constructor
      · rintro ⟨h1, h2⟩
        exact ⟨Or.inr h1, h2⟩
      · rintro ⟨h1 | h1, h2⟩
        · subst h1; exact absurd hy h2
        · exact ⟨h1, h2⟩
    · rw [dedupAux, if_neg hy]
      simp only [List.mem_cons, ih, List.mem_append, List.mem_singleton]
      constructor
      · rintro (rfl | ⟨h1, h2⟩)
        · exact ⟨Or.inl rfl, hy⟩
        · exact ⟨Or.inr h1, fun hs => h2 (Or.inl hs)⟩
      · rintro ⟨rfl | h1, h2⟩
        · exact Or.inl rfl
        · by_cases hxy : x = y
          · exact Or.inl hxy
          · exact Or.inr ⟨h1, by simp [h2, hxy]⟩

theorem tryEntries_success (p : String) (files : List ZEntry) :
    ∀ acc, (∀ e ∈ files, (e.read p).isSome = true) →
      (tryEntries p files acc).2 = true := by
  induction files with
  | nil => intro acc _; rfl
  | cons e es ih =>
    intro acc h
    obtain ⟨d, hd⟩ := Option.isSome_iff_exists.mp (h e (List.mem_cons_self e es))
    rw [tryEntries, hd]
    exact ih _ (fun e' he' => h e' (List.mem_cons_of_mem _ he'))

theorem tryPasswords_stop (es : List ZEntry) (p : String)
    (hp : ∀ e ∈ nonDirFiles es, (e.read p).isSome = true) :
    ∀ l₁ l₂ acc, tryPasswords (some es) (l₁ ++ p :: l₂) acc =
      tryPasswords (some es) (l₁ ++ [p]) acc := by
  intro l₁
  induction l₁ with
  | nil =>
    intro l₂ acc
    have hr : (tryEntries p (nonDirFiles es) acc).2 = true := tryEntries_success p _ acc hp
    rw [List.nil_append, List.nil_append, tryPasswords, tryPasswords, if_pos hr, if_pos hr]
  | cons q l₁ ih =>
    intro l₂ acc
    rw [List.cons_append, List.cons_append, tryPasswords, tryPasswords]
    by_cases hq : (tryEntries q (nonDirFiles es) acc).2 = true
    · rw [if_pos hq, if_pos hq]
    · rw [if_neg hq, if_neg hq]
      exact ih l₂ _

/-- C7. The password-trial behaviour of `decompressArchive`: the candidate
list actually tried is `jsSetDedup ("" :: passwords)`, which starts with the
empty string, has no duplicates, and is the first-seen-order subsequence of
the supplied candidates; the call succeeds exactly when that sequential
trial loop does; and once a password decompresses every non-directory
entry, the candidates after it are never examined (the loop result does not
depend on them). -/
theorem C7_password_order (arch : Option (List ZEntry)) (passwords : List String) :
    (jsSetDedup ("" :: passwords)).head? = some "" ∧
    (jsSetDedup ("" :: passwords)).Nodup ∧
    List.Sublist (jsSetDedup ("" :: passwords)) ("" :: passwords) ∧
    (∀ x, x ∈ jsSetDedup ("" :: passwords) ↔ x ∈ ("" :: passwords)) ∧
    (∀ out, decompressArchive arch ".zip" passwords = Except.ok out ↔
      tryPasswords arch (jsSetDedup ("" :: passwords)) [] = some out) ∧
    (∀ es l₁ p l₂ acc, arch = some es →
      (∀ e ∈ nonDirFiles es, (e.read p).isSome = true) →
      tryPasswords arch (l₁ ++ p :: l₂) acc = tryPasswords arch (l₁ ++ [p]) acc) := by
  refine ⟨?_, (dedupAux_nodup _ _).1, dedupAux_sublist _ _, ?_, ?_, ?_⟩
  · rw [jsSetDedup, dedupAux, if_neg (List.not_mem_nil "")]
    rfl
  · intro x
    rw [jsSetDedup, dedupAux_mem]
    simp
  · intro out
    rw [decompressArchive, if_neg (by simp)]
    cases h : tryPasswords arch (jsSetDedup ("" :: passwords)) [] <;> simp [h]
  · intro es l₁ p l₂ acc harch hp
    subst harch
    exact tryPasswords_stop es p hp l₁ l₂ acc

/-- C7 witness: duplicates and the implicit empty string on a concrete
candidate list, and stop-at-first-success on the concrete archive. -/
theorem C7_witness :
    (jsSetDedup ("" :: ["p", "p", ""])).head? = some "" ∧
    tryPasswords archStale (["x"] ++ "p" :: ["y"]) [] =
      tryPasswords archStale (["x"] ++ ["p"]) [] :=
  ⟨(C7_password_order archStale ["p", "p", ""]).1,
   (C7_password_order archStale ["p", "p", ""]).2.2.2.2.2
     [entryOpen, entryLocked] ["x"] "p" ["y"] [] rfl (by decide)⟩

/-- Specification-side reading of last-write-wins: the field list of the
last line of `rest` carrying tag `t`, if any. -/
def lastTag (rest : List String) (t : String) : Option (List String) :=
  ((rest.filter (fun l => tagOf l = t)).getLast?).map partsOf

/-- Specification-side administrative record for a block opened by `a1` and
continued by `rest`: protocol and lab ids from the opening line, every
other field from the last occurrence of its administrative tag. -/
def specAdmin (a1 : String) (rest : List String) : ParsedAdministrativeData :=
  { ident_protocol := (partsOf a1).get? 1,
    lab_identification := (partsOf a1).get? 2,
    surname := (lastTag rest "A2").bind (fun p => p.get? 2),
    firstname := (lastTag rest "A2").bind (fun p => p.get? 3),
    sex := (lastTag rest "A2").bind (fun p => p.get? 4),
    date_of_birth := (lastTag rest "A2").bind (fun p => p.get? 5),
    external_identifier := (lastTag rest "A2").bind (fun p => orNull (p.get? 6)),
    street_number := (lastTag rest "A3").bind (fun p => p.get? 2),
    postal_code := (lastTag rest "A3").bind (fun p => p.get? 3),
    city := (lastTag rest "A3").bind (fun p => p.get? 4),
    prescribing_doctor := (lastTag rest "A4").bind (fun p => p.get? 2),
    date_request := (lastTag rest "A4").bind (fun p => p.get? 3),
    empty_field := (lastTag rest "A4").bind (fun p => orNull (p.get? 4)),
    protocol_type := (lastTag rest "A4").bind (fun p => p.get? 5),
    cover := (lastTag rest "A5").bind (fun p => p.get? 2),
    holder := (lastTag rest "A5").bind (fun p => p.get? 3),
    cod_tit1 := (lastTag rest "A5").bind (fun p => p.get? 4),
    cod_tit2 := (lastTag rest "A5").bind (fun p => p.get? 5) }

/-- Specification-side result record of a single L1/L5 line. -/
def mkResult (l : String) : Option ParsedResultData :=
  if tagOf l = "L1" then
    some { type := 1,
           ident_protocol := (partsOf l).get? 1,
           analytical_code := (partsOf l).get? 2,
           analytical_name := (partsOf l).get? 3,
           reference_value := (partsOf l).get? 4,
           unit := (partsOf l).get? 5,
           code := (partsOf l).get? 6,
           result := (partsOf l).get? 7 }
  else if tagOf l = "L5" then
    some { type := 5,
           ident_protocol := (partsOf l).get? 1,
           analytical_code := (partsOf l).get? 2,
           analytical_name := some "",
           reference_value := some "",
           unit := some "",
           code := some "",
           result := (partsOf l).get? 6 }
  else none

/-- Specification-side result list: one record per L1/L5 line of `rest`,
in source order. -/
def specResults (rest : List String) : List ParsedResultData :=
  rest.filterMap mkResult

theorem lastTag_concat_eq (rest : List String) (l : String) (t : String)
    (h : tagOf l = t) : lastTag (rest ++ [l]) t = some (partsOf l) := by
  rw [lastTag, List.filter_append]
  simp [h]

theorem lastTag_concat_ne (rest : List String) (l : String) (t : String)
    (h : ¬ tagOf l = t) : lastTag (rest ++ [l]) t = lastTag rest t := by
  rw [lastTag, lastTag, List.filter_append]
  simp [h]

theorem specResults_concat (rest : List String) (l : String) :
    specResults (rest ++ [l]) = specResults rest ++ (mkResult l).toList := by
  rw [specResults, specResults, List.filterMap_append]
  cases h : mkResult l <;> simp [List.filterMap, h]

theorem mkResult_not_L (l : String) (h1 : ¬ tagOf l = "L1") (h5 : ¬ tagOf l = "L5") :
    mkResult l = none := by
  rw [mkResult, if_neg h1, if_neg h5]

theorem specAdmin_concat_A2 (a1 : String) (rest : List String) (l : String)
    (h : tagOf l = "A2") :
    specAdmin a1 (rest ++ [l]) =
      { specAdmin a1 rest with
        surname := (partsOf l).get? 2,
        firstname := (partsOf l).get? 3,
        sex := (partsOf l).get? 4,
        date_of_birth := (partsOf l).get? 5,
        external_identifier := orNull ((partsOf l).get? 6) } := by
  have h3 : ¬ tagOf l = "A3" := by rw [h]; decide
  have h4 : ¬ tagOf l = "A4" := by rw [h]; decide
  have h5 : ¬ tagOf l = "A5" := by rw [h]; decide
  simp [specAdmin, lastTag_concat_eq rest l _ h, lastTag_concat_ne rest l _ h3,
    lastTag_concat_ne rest l _ h4, lastTag_concat_ne rest l _ h5]

theorem specAdmin_concat_A3 (a1 : String) (rest : List String) (l : String)
    (h : tagOf l = "A3") :
    specAdmin a1 (rest ++ [l]) =
      { specAdmin a1 rest with
        street_number := (partsOf l).get? 2,
        postal_code := (partsOf l).get? 3,
        city := (partsOf l).get? 4 } := by
  have h2 : ¬ tagOf l = "A2" := by rw [h]; decide
  have h4 : ¬ tagOf l = "A4" := by rw [h]; decide
  have h5 : ¬ tagOf l = "A5" := by rw [h]; decide
  simp [specAdmin, lastTag_concat_eq rest l _ h, lastTag_concat_ne rest l _ h2,
    lastTag_concat_ne rest l _ h4, lastTag_concat_ne rest l _ h5]

theorem specAdmin_concat_A4 (a1 : String) (rest : List String) (l : String)
    (h : tagOf l = "A4") :
    specAdmin a1 (rest ++ [l]) =
      { specAdmin a1 rest with
        prescribing_doctor := (partsOf l).get? 2,
        date_request := (partsOf l).get? 3,
        empty_field := orNull ((partsOf l).get? 4),
        protocol_type := (partsOf l).get? 5 } := by
  have h2 : ¬ tagOf l = "A2" := by rw [h]; decide
  have h3 : ¬ tagOf l = "A3" := by rw [h]; decide
  have h5 : ¬ tagOf l = "A5" := by rw [h]; decide
  simp [specAdmin, lastTag_concat_eq rest l _ h, lastTag_concat_ne rest l _ h2,
    lastTag_concat_ne rest l _ h3, lastTag_concat_ne rest l _ h5]

theorem specAdmin_concat_A5 (a1 : String) (rest : List String) (l : String)
    (h : tagOf l = "A5") :
    specAdmin a1 (rest ++ [l]) =
      { specAdmin a1 rest with
        cover := (partsOf l).get? 2,
        holder := (partsOf l).get? 3,
        cod_tit1 := (partsOf l).get? 4,
        cod_tit2 := (partsOf l).get? 5 } := by
  have h2 : ¬ tagOf l = "A2" := by rw [h]; decide
  have h3 : ¬ tagOf l = "A3" := by rw [h]; decide
  have h4 : ¬ tagOf l = "A4" := by rw [h]; decide
  simp [specAdmin, lastTag_concat_eq rest l _ h, lastTag_concat_ne rest l _ h2,
    lastTag_concat_ne rest l _ h3, lastTag_concat_ne rest l _ h4]

theorem specAdmin_concat_other (a1 : String) (rest : List String) (l : String)
    (h2 : ¬ tagOf l = "A2") (h3 : ¬ tagOf l = "A3")
    (h4 : ¬ tagOf l = "A4") (h5 : ¬ tagOf l = "A5") :
    specAdmin a1 (rest ++ [l]) = specAdmin a1 rest := by
  simp [specAdmin, lastTag_concat_ne rest l _ h2, lastTag_concat_ne rest l _ h3,
    lastTag_concat_ne rest l _ h4, lastTag_concat_ne rest l _ h5]

theorem processLine_tag (st : ParserState) (x : String) (t : String) (htag : tagOf x = t)
    (hne : ¬ t = "") (hsw : jsStartsWith t "A1" = false)
    (hpid : st.currentProtocolId ≠ JVal.null) :
    processLine st x = applySwitch st (partsOf x) t := by
  have hne' : ¬ ((partsOf x).headD "" = "") := by
    change ¬ (tagOf x = "")
    rw [htag]; exact hne
  have hsw' : jsStartsWith ((partsOf x).headD "") "A1" = false := by
    change jsStartsWith (tagOf x) "A1" = false
    rw [htag]; exact hsw
  have h := processParts_switch st (partsOf x) hne' hsw' hpid
  rw [show (partsOf x).headD "" = tagOf x from rfl, htag] at h
  exact h

theorem mkResult_L1 (l : String) (h : tagOf l = "L1") :
    mkResult l = some
      { type := 1,
        ident_protocol := (partsOf l).get? 1,
        analytical_code := (partsOf l).get? 2,
        analytical_name := (partsOf l).get? 3,
        reference_value := (partsOf l).get? 4,
        unit := (partsOf l).get? 5,
        code := (partsOf l).get? 6,
        result := (partsOf l).get? 7 } := by
  rw [mkResult, if_pos h]

theorem mkResult_L5 (l : String) (h : tagOf l = "L5") :
    mkResult l = some
      { type := 5,
        ident_protocol := (partsOf l).get? 1,
        analytical_code := (partsOf l).get? 2,
        analytical_name := some "",
        reference_value := some "",
        unit := some "",
        code := some "",
        result := (partsOf l).get? 6 } := by
  rw [mkResult, if_neg (by rw [h]; decide), if_pos h]

theorem C5_loop (a1 : String) (h1 : isBlockOpening a1 = true) :
    ∀ rest : List String,
      (∀ l ∈ rest, tagOf l ∈ (["A2", "A3", "A4", "A5", "L1", "L5"] : List String)) →
      ∃ ks, List.foldl processLine initState (a1 :: rest) =
        { blocks := [],
          currentAdmin := specAdmin a1 rest,
          currentAdminKeys := ks,
          currentResults := specResults rest,
          currentProtocolId := jvalOf ((partsOf a1).get? 1) } ∧
        ks ≠ [] := by
  intro rest
  induction rest using List.reverseRecOn with
  | nil =>
    intro _
    refine ⟨["ident_protocol", "lab_identification"], ?_, by simp⟩
    simp only [List.foldl_cons, List.foldl_nil]
    rw [show processLine initState a1 = processParts initState (partsOf a1) from rfl,
        processParts_opening initState (partsOf a1) h1]
    simp [initState, specAdmin, lastTag, specResults]
  | append_singleton xs x ih =>
    intro h2
    obtain ⟨ks, hst, hks⟩ := ih (fun l hl => h2 l (by simp [hl]))
    have hx := h2 x (by simp)
    rw [show a1 :: (xs ++ [x]) = (a1 :: xs) ++ [x] from rfl, List.foldl_append, hst]
    simp only [List.foldl_cons, List.foldl_nil]
    simp only [List.mem_cons, List.not_mem_nil, or_false] at hx
    rcases hx with htag | htag | htag | htag | htag | htag
    · refine ⟨addKeys ks ["surname", "firstname", "sex", "date_of_birth", "external_identifier"],
        ?_, addKeys_ne_nil _ _ hks⟩
      rw [processLine_tag _ x "A2" htag (by decide) (by decide) (jvalOf_ne_null _),
          specAdmin_concat_A2 a1 xs x htag, specResults_concat xs x,
          mkResult_not_L x (by rw [htag]; decide) (by rw [htag]; decide)]
      simp [applySwitch]
    · refine ⟨addKeys ks ["street_number", "postal_code", "city"], ?_, addKeys_ne_nil _ _ hks⟩
      rw [processLine_tag _ x "A3" htag (by decide) (by decide) (jvalOf_ne_null _),
          specAdmin_concat_A3 a1 xs x htag, specResults_concat xs x,
          mkResult_not_L x (by rw [htag]; decide) (by rw [htag]; decide)]
      simp [applySwitch]
    · refine ⟨addKeys ks ["prescribing_doctor", "date_request", "empty_field", "protocol_type"],
        ?_, addKeys_ne_nil _ _ hks⟩
      rw [processLine_tag _ x "A4" htag (by decide) (by decide) (jvalOf_ne_null _),
          specAdmin_concat_A4 a1 xs x htag, specResults_concat xs x,
          mkResult_not_L x (by rw [htag]; decide) (by rw [htag]; decide)]
      simp [applySwitch]
    · refine ⟨addKeys ks ["cover", "holder", "cod_tit1", "cod_tit2"], ?_, addKeys_ne_nil _ _ hks⟩
      rw [processLine_tag _ x "A5" htag (by decide) (by decide) (jvalOf_ne_null _),
          specAdmin_concat_A5 a1 xs x htag, specResults_concat xs x,
          mkResult_not_L x (by rw [htag]; decide) (by rw [htag]; decide)]
      simp [applySwitch]
    · refine ⟨ks, ?_, hks⟩
      rw [processLine_tag _ x "L1" htag (by decide) (by decide) (jvalOf_ne_null _),
          specAdmin_concat_other a1 xs x (by rw [htag]; decide) (by rw [htag]; decide)
            (by rw [htag]; decide) (by rw [htag]; decide),
          specResults_concat xs x, mkResult_L1 x htag]
      simp [applySwitch]
    · refine ⟨ks, ?_, hks⟩
      rw [processLine_tag _ x "L5" htag (by decide) (by decide) (jvalOf_ne_null _),
          specAdmin_concat_other a1 xs x (by rw [htag]; decide) (by rw [htag]; decide)
            (by rw [htag]; decide) (by rw [htag]; decide),
          specResults_concat xs x, mkResult_L5 x htag]
      simp [applySwitch]

/-- C5. For every input whose (blank-filtered) lines are one block-opening
A1 line followed only by A2-A5/L1/L5 lines, the parser returns exactly one
block; its administrative fields are the values of the last occurrence of
each administrative tag (last-write-wins) with protocol and lab ids from
the A1 line, and its result list has one record per L1/L5 line in source
order. -/
theorem C5_single_block (s : String) (a1 : String) (rest : List String)
    (h1 : isBlockOpening a1 = true)
    (h2 : ∀ l ∈ rest, tagOf l ∈ (["A2", "A3", "A4", "A5", "L1", "L5"] : List String))
    (h3 : labLines s = a1 :: rest) :
    parseLabFile s = [{ administrative := specAdmin a1 rest, results := specResults rest }] := by
  obtain ⟨ks, hst, hks⟩ := C5_loop a1 h1 rest h2
  simp only [parseLabFile]
  rw [h3, hst]
  rw [if_pos (Or.inl (List.length_pos.mpr hks))]
  simp

/-- C5 witness: a block with a repeated A2 tag (the later one wins) and two
result lines in order. -/
theorem C5_witness :
    parseLabFile
        "A1\\P1\\LB\nA2\\P1\\Doe\\John\\M\\01011990\\E1\nA2\\P1\\Smith\nL1\\P1\\GLU\\Gluc\\70-110\\mg\\c\\95\nL5\\P1\\HGB\\\\\\\\\\14" =
      [{ administrative :=
            specAdmin "A1\\P1\\LB"
              ["A2\\P1\\Doe\\John\\M\\01011990\\E1", "A2\\P1\\Smith",
               "L1\\P1\\GLU\\Gluc\\70-110\\mg\\c\\95", "L5\\P1\\HGB\\\\\\\\\\14"],
         results :=
            specResults
              ["A2\\P1\\Doe\\John\\M\\01011990\\E1", "A2\\P1\\Smith",
               "L1\\P1\\GLU\\Gluc\\70-110\\mg\\c\\95", "L5\\P1\\HGB\\\\\\\\\\14"] }] :=
  C5_single_block _ "A1\\P1\\LB"
    ["A2\\P1\\Doe\\John\\M\\01011990\\E1", "A2\\P1\\Smith",
     "L1\\P1\\GLU\\Gluc\\70-110\\mg\\c\\95", "L5\\P1\\HGB\\\\\\\\\\14"]
    (by decide) (by decide) (by decide)
